import Mathlib

/-!
Verification development for the discord-emoji-downloader repository.

The two core functions of `src/emoji-processor.ts` (the name-based variant:
`extractEmojiUrls` returning `{url, name}[]` and `downloadAndProcessEmojis`)
are shallowly embedded below.  Strings are `List Char`; the browser session,
the network, the image library (`sharp`) and the on-disk read-back are
modelled as explicit oracles, since the embedded code only observes their
results.
-/

/-- JS strings, modelled as lists of characters. -/
abbrev Str : Type := List Char

/-- Byte buffers (`Buffer`), modelled as lists of byte values. -/
abbrev Bytes : Type := List Nat

/-- Converts a Lean string literal to the `Str` representation. -/
def s2l (s : String) : Str := s.data

/-- `h.startsWith n` on JS strings: `n` is a leading run of `h`. -/
def startsWithStr : Str → Str → Bool
  | _, [] => true
  | [], _ :: _ => false
  | c :: h, d :: n => c == d && startsWithStr h n

/-- `h.includes(n)` on JS strings: `n` occurs contiguously inside `h`. -/
def includesStr : Str → Str → Bool
  | [], n => startsWithStr [] n
  | c :: t, n => startsWithStr (c :: t) n || includesStr t n

/-- Strips the literal `n` from the front of `s`, if present. -/
def dropLit : Str → Str → Option Str
  | s, [] => some s
  | [], _ :: _ => none
  | c :: s, d :: n => if c = d then dropLit s n else none

/-- Attempts to match the regex `size=\d+` at the start of `s`
(literal `size=` followed by a maximal nonempty digit run), returning
the remainder after the match. -/
def matchSizeAt (s : Str) : Option Str :=
  match dropLit s (s2l "size=") with
  | none => none
  | some rest =>
    if (rest.takeWhile Char.isDigit).isEmpty then none
    else some (rest.dropWhile Char.isDigit)

/-- Finds the leftmost match of `size=\d+` in `s`, returning the part
before the match and the part after it. -/
def findSize : Str → Option (Str × Str)
  | [] => none
  | c :: t =>
    match matchSizeAt (c :: t) with
    | some rest => some ([], rest)
    | none =>
      match findSize t with
      | some (p, r) => some (c :: p, r)
      | none => none

/-- `src.replace(/size=\d+/, 'size=512')`: replaces the leftmost
`size=<digits>` occurrence by `size=512`; leaves `s` unchanged when no
match exists. -/
def replaceSizeOnce (s : Str) : Str :=
  match findSize s with
  | none => s
  | some (p, r) => p ++ s2l "size=512" ++ r

/-- URL normalization performed on each thumbnail `src`
(`emoji-processor.ts`, name-based variant): remember whether the original
URL carries `animated=true`, force `size=512`, and re-append the animation
marker when the rewrite lost it. -/
def normalizeSrc (src : Str) : Str :=
  let isAnimated := includesStr src (s2l "animated=true")
  let s := replaceSizeOnce src
  if isAnimated && !includesStr s (s2l "animated=true") then
    s ++ s2l "&animated=true"
  else
    s

/-- Characters allowed in a sanitized emoji name: `[a-zA-Z0-9_-]`. -/
def allowedChar (c : Char) : Bool :=
  c.isAlpha || c.isDigit || c = '_' || c = '-'

/-- `name.replace(/^:/, '')`: removes one leading colon. -/
def stripColonLead : Str → Str
  | [] => []
  | c :: t => if c = ':' then t else c :: t

/-- `name.replace(/:$/, '')`: removes one trailing colon. -/
def stripColonTrail (s : Str) : Str :=
  (stripColonLead s.reverse).reverse

/-- Name sanitization on the thumbnail `alt` text: strip one leading and
one trailing colon, then replace every character outside `[a-zA-Z0-9_-]`
by `_`. -/
def sanitizeAlt (alt : Str) : Str :=
  (stripColonTrail (stripColonLead alt)).map (fun c => if allowedChar c then c else '_')

/-- A rendered emoji thumbnail as the session exposes it: its `src` URL and
its `alt` accessible label. -/
structure Thumb where
  src : Str
  alt : Str
deriving DecidableEq

/-- A collected emoji descriptor: normalized URL and sanitized name. -/
structure Emoji where
  url : Str
  name : Str
deriving DecidableEq

/-- Builds the descriptor recorded for one thumbnail. -/
def normThumb (t : Thumb) : Emoji :=
  ⟨normalizeSrc t.src, sanitizeAlt t.alt⟩

/-! ### Collector -/

/-- What one scan round observes: the thumbnails currently rendered inside
the server emoji section, and whether the section's next structural sibling
is a new category section (`categorySection_c656ac`). -/
structure Round where
  thumbs : List Thumb
  nextIsSection : Bool

/-- The browser session as the collector observes it: whether the two
required elements are present, and what each scan round renders. -/
structure Session where
  hasContainer : Bool
  hasSection : Bool
  rounds : Nat → Round

/-- Collector dedup state: the set of URLs already recorded (in insertion
order) and the ordered output list. -/
structure DState where
  seen : List Str
  out : List Emoji

/-- Processing of a single thumbnail: normalize, sanitize, and append the
descriptor only when the normalized URL is new. -/
def scanThumb (st : DState) (t : Thumb) : DState :=
  let e := normThumb t
  if e.url ∈ st.seen then st
  else ⟨st.seen ++ [e.url], st.out ++ [e]⟩

/-- One round's `emojis.forEach(...)` over every rendered thumbnail. -/
def scanRound (st : DState) (ts : List Thumb) : DState :=
  ts.foldl scanThumb st

/-- Why the scroll loop stopped. -/
inductive CollectExit where
  | boundary
  | stagnation
  | roundCap
deriving DecidableEq

/-- Per-round trace record: round index, the distinct count the round was
compared against (`previousEmojiCount`), the distinct count after the scan
(`currentEmojiCount`), the boundary flag, and `noNewEmojisCount` before and
after the round. -/
structure RoundLog where
  idx : Nat
  countBefore : Nat
  countAfter : Nat
  boundary : Bool
  noNewBefore : Nat
  noNewAfter : Nat
deriving DecidableEq

/-- Result of running the scroll loop, instrumented with the list of
thumbnails scanned, a per-round trace, the exit cause, the value of
`scrollAttempts` when the loop stopped, and the number of scrolls issued. -/
structure CollectRes where
  out : List Emoji
  scanned : List Thumb
  trace : List RoundLog
  exit : CollectExit
  exitRound : Nat
  scrolls : Nat

/-- The scroll loop of `extractEmojiUrls` (name-based variant): while
`scrollAttempts < maxScrollAttempts` scan all rendered thumbnails, stop if
the next sibling is a new category section, count stagnant rounds (three
consecutive rounds without growth stop the loop), otherwise scroll and
continue.  `fuel` is the number of loop iterations still allowed,
i.e. `maxScrollAttempts - scrollAttempts`. -/
def runRounds (rounds : Nat → Round) : Nat → Nat → Nat → Nat → DState → CollectRes
  | 0, round, _, _, st =>
    { out := st.out, scanned := [], trace := [], exit := .roundCap,
      exitRound := round, scrolls := 0 }
  | fuel + 1, round, prev, noNew, st =>
    let r := rounds round
    let st1 := scanRound st r.thumbs
    let cur := st1.seen.length
    if r.nextIsSection then
      { out := st1.out, scanned := r.thumbs,
        trace := [⟨round, prev, cur, true, noNew, noNew⟩],
        exit := .boundary, exitRound := round, scrolls := 0 }
    else if cur = prev then
      if 3 ≤ noNew + 1 then
        { out := st1.out, scanned := r.thumbs,
          trace := [⟨round, prev, cur, false, noNew, noNew + 1⟩],
          exit := .stagnation, exitRound := round, scrolls := 0 }
      else
        let rest := runRounds rounds fuel (round + 1) cur (noNew + 1) st1
        { out := rest.out, scanned := r.thumbs ++ rest.scanned,
          trace := ⟨round, prev, cur, false, noNew, noNew + 1⟩ :: rest.trace,
          exit := rest.exit, exitRound := rest.exitRound, scrolls := rest.scrolls + 1 }
    else
      let rest := runRounds rounds fuel (round + 1) cur 0 st1
      { out := rest.out, scanned := r.thumbs ++ rest.scanned,
        trace := ⟨round, prev, cur, false, noNew, 0⟩ :: rest.trace,
        exit := rest.exit, exitRound := rest.exitRound, scrolls := rest.scrolls + 1 }

/-- `extractEmojiUrls` (name-based variant): fail when the emoji picker
container or the server emoji section is absent, otherwise run the scroll
loop with `maxScrollAttempts = 50` from an empty dedup state. -/
def extractEmojiUrls (s : Session) : Except Str CollectRes :=
  if s.hasContainer = false then
    .error (s2l "Emoji picker container not found")
  else if s.hasSection = false then
    .error (s2l "Server emoji section not found")
  else
    .ok (runRounds s.rounds 50 0 0 0 ⟨[], []⟩)

/-- How the orchestrator's run ends: the final success log of `index.ts`,
or the `catch` block logging the propagated error message. -/
inductive RunOutcome where
  | completed
  | aborted (msg : Str)
deriving DecidableEq

/-! ### Pipeline -/

/-- The output directory tree: a map from paths to byte contents. -/
abbrev FS : Type := Str → Option Bytes

/-- `Bun.write(path, bytes)`: overwrites whatever was at `path`. -/
def fsWrite (p : Str) (b : Bytes) (fs : FS) : FS :=
  fun q => if q = p then some b else fs q

/-- The environment of the pipeline, modelled as oracles: `fetch` yields
`(response.ok, body bytes)` for a URL; `sharpEnc` is the
decode/resize/re-encode step of `sharp` (buffer, animated flag, target
size; `none` models a thrown decode error); `readBack` is the byte length
observed when re-opening a written file (the environment, not the code,
determines it). -/
structure World where
  fetch : Str → Bool × Bytes
  sharpEnc : Bytes → Bool → Nat → Option Bytes
  readBack : Str → Nat

/-- The failure conditions an item can raise. -/
inductive FailReason where
  | fetchFailed
  | emptyPayload
  | sharpError
  | emptyOutput
deriving DecidableEq

/-- The console output lines of `downloadAndProcessEmojis`, structured.
Only `failed` is emitted on the error channel (`console.error`); every
other message is `console.log`. -/
inductive LogMsg where
  | downloading (idx total : Nat)
  | downloaded (idx size : Nat)
  | processedOut (idx size : Nat)
  | saved (idx : Nat)
  | diskSize (size : Nat)
  | failed (idx : Nat) (why : FailReason)
deriving DecidableEq

/-- Whether a log line went to `console.error` (the per-item catch). -/
def isFailureLog : LogMsg → Bool
  | .failed _ _ => true
  | _ => false

/-- `${emoji.name}.webp`: the name-based variant's file name, used
unconditionally. -/
def fileNameNamed (e : Emoji) : Str :=
  e.name ++ s2l ".webp"

/-- `emoji_${index + 1}.webp`: the positional file name used by the earlier
URL-only variant of the pipeline, for every item. -/
def fileNamePositional (i : Nat) : Str :=
  s2l "emoji_" ++ (Nat.repr (i + 1)).data ++ s2l ".webp"

/-- `path.join(outputBaseDir, server.folder, fileName)`. -/
def destPath (dir folder name : Str) : Str :=
  dir ++ ['/'] ++ folder ++ ['/'] ++ name

/-- Destination path of an item in the name-based pipeline. -/
def destPathNamed (dir folder : Str) (e : Emoji) : Str :=
  destPath dir folder (fileNameNamed e)

/-- The result of the `sharp(...).resize(...).webp(...).toBuffer()` chain
for an item: the downloaded body, the `animated` flag derived from the URL,
and the configured size are passed to the oracle. -/
def encRes (w : World) (sz : Nat) (e : Emoji) : Option Bytes :=
  w.sharpEnc (w.fetch e.url).2 (includesStr e.url (s2l "animated=true")) sz

/-- Whether item `e` passes every checkpoint before the write (mirrors the
branch structure of `processItem`). -/
def itemSucceeds (w : World) (sz : Nat) (e : Emoji) : Bool :=
  if (w.fetch e.url).1 = false then false
  else if (w.fetch e.url).2.length = 0 then false
  else
    match encRes w sz e with
    | none => false
    | some enc => if enc.length = 0 then false else true

/-- The encoded bytes of a succeeding item. -/
def encOf (w : World) (sz : Nat) (e : Emoji) : Bytes :=
  (encRes w sz e).getD []

/-- The body of the per-item `try`/`catch` of `downloadAndProcessEmojis`
(name-based variant) for the item at index `i` of `total`: fetch, validate
nonempty payload, resize/re-encode, validate nonempty output, write to the
destination path, then re-open the file and log its observed size.  Every
raised condition is caught and logged on the error channel; the filesystem
is returned unchanged in that case. -/
def processItem (w : World) (e : Emoji) (i total sz : Nat) (dir folder : Str)
    (fs : FS) : FS × List LogMsg :=
  if (w.fetch e.url).1 = false then
    (fs, [.downloading (i + 1) total, .failed (i + 1) .fetchFailed])
  else if (w.fetch e.url).2.length = 0 then
    (fs, [.downloading (i + 1) total, .downloaded (i + 1) 0,
          .failed (i + 1) .emptyPayload])
  else
    match encRes w sz e with
    | none =>
      (fs, [.downloading (i + 1) total, .downloaded (i + 1) (w.fetch e.url).2.length,
            .failed (i + 1) .sharpError])
    | some enc =>
      if enc.length = 0 then
        (fs, [.downloading (i + 1) total, .downloaded (i + 1) (w.fetch e.url).2.length,
              .processedOut (i + 1) 0, .failed (i + 1) .emptyOutput])
      else
        (fsWrite (destPathNamed dir folder e) enc fs,
         [.downloading (i + 1) total, .downloaded (i + 1) (w.fetch e.url).2.length,
          .processedOut (i + 1) enc.length, .saved (i + 1),
          .diskSize (w.readBack (destPathNamed dir folder e))])

/-- The `for (const [index, emoji] of emojis.entries())` loop, processing
items strictly in order starting at index `i`. -/
def runItems (w : World) (dir folder : Str) (total sz : Nat) :
    List Emoji → Nat → FS → FS × List LogMsg
  | [], _, fs => (fs, [])
  | e :: es, i, fs =>
    let r1 := processItem w e i total sz dir folder fs
    let r2 := runItems w dir folder total sz es (i + 1) r1.1
    (r2.1, r1.2 ++ r2.2)

/-- `downloadAndProcessEmojis` (name-based variant): process every item in
input order; failures are contained per item. -/
def downloadAndProcessEmojis (w : World) (items : List Emoji)
    (dir folder : Str) (sz : Nat) (fs : FS) : FS × List LogMsg :=
  runItems w dir folder items.length sz items 0 fs

/-! ### Orchestrator (`src/index.ts`) -/

/-- One server entry of the orchestrator loop: the page state observed when
`extractEmojiUrls` is called for this server, the network/image/disk
environment of its pipeline run, and its output folder. -/
structure ServerTask where
  session : Session
  world : World
  folder : Str

/-- Result of the orchestrator loop, instrumented with the number of
collector invocations made for each server that was reached (ghost
instrumentation; the code performs exactly one call per iteration). -/
structure OrchRes where
  collectCalls : List Nat
  fs : FS
  outcome : RunOutcome

/-- The `for (const server of env.servers)` loop of `src/index.ts`
(lines 47-70), which sits inside a single `try`/`catch` (lines 39-78): for
each server, call `extractEmojiUrls` exactly once (line 60), then run
`downloadAndProcessEmojis` (line 65), then continue with the next server.
A thrown error — in particular a structural failure of the collector —
propagates out of the loop to the `catch` (line 73), which logs the
message: the remaining work is abandoned and nothing is retried.  The
navigation steps (login, `navigateToServer`, `openEmojiPicker`) are
modelled as succeeding; each server's page state at collection time is its
task's `session`. -/
def processServers (dir : Str) (sz : Nat) : List ServerTask → FS → OrchRes
  | [], fs => { collectCalls := [], fs := fs, outcome := .completed }
  | t :: ts, fs =>
    match extractEmojiUrls t.session with
    | .error msg => { collectCalls := [1], fs := fs, outcome := .aborted msg }
    | .ok res =>
      let r := downloadAndProcessEmojis t.world res.out dir t.folder sz fs
      let rest := processServers dir sz ts r.1
      { collectCalls := 1 :: rest.collectCalls, fs := rest.fs, outcome := rest.outcome }

/-! ### Derived characterizations and spec-side references -/

/-- Spec-side reference for the dedup postcondition: keep, for each distinct
`url`, exactly the first descriptor carrying it, in order of first
discovery; `seen` is the set of URLs already taken. -/
def firstSeenDedup (seen : List Str) : List Emoji → List Emoji
  | [] => []
  | e :: es =>
    if e.url ∈ seen then firstSeenDedup seen es
    else e :: firstSeenDedup (seen ++ [e.url]) es

/-- The thumbnails rendered by rounds `r, r+1, ..., r+k-1`, concatenated. -/
def scanBlock (rounds : Nat → Round) : Nat → Nat → List Thumb
  | _, 0 => []
  | r, k + 1 => (rounds r).thumbs ++ scanBlock rounds (r + 1) k

/-- The log lines `processItem` emits for one item (they do not depend on
the filesystem); mirrors the branch structure of `processItem`. -/
def itemLogs (w : World) (e : Emoji) (i total sz : Nat) (dir folder : Str) :
    List LogMsg :=
  if (w.fetch e.url).1 = false then
    [.downloading (i + 1) total, .failed (i + 1) .fetchFailed]
  else if (w.fetch e.url).2.length = 0 then
    [.downloading (i + 1) total, .downloaded (i + 1) 0,
     .failed (i + 1) .emptyPayload]
  else
    match encRes w sz e with
    | none =>
      [.downloading (i + 1) total, .downloaded (i + 1) (w.fetch e.url).2.length,
       .failed (i + 1) .sharpError]
    | some enc =>
      if enc.length = 0 then
        [.downloading (i + 1) total, .downloaded (i + 1) (w.fetch e.url).2.length,
         .processedOut (i + 1) 0, .failed (i + 1) .emptyOutput]
      else
        [.downloading (i + 1) total, .downloaded (i + 1) (w.fetch e.url).2.length,
         .processedOut (i + 1) enc.length, .saved (i + 1),
         .diskSize (w.readBack (destPathNamed dir folder e))]

/-- The `(path, bytes)` pairs the pipeline writes for a list of items:
one per item that passes every pre-write checkpoint. -/
def writesOf (w : World) (sz : Nat) (dir folder : Str) : List Emoji → List (Str × Bytes)
  | [] => []
  | e :: es =>
    (if itemSucceeds w sz e then [(destPathNamed dir folder e, encOf w sz e)] else [])
      ++ writesOf w sz dir folder es

/-- All log lines the pipeline emits for a list of items starting at index `i`. -/
def logsOf (w : World) (total sz : Nat) (dir folder : Str) :
    List Emoji → Nat → List LogMsg
  | [], _ => []
  | e :: es, i => itemLogs w e i total sz dir folder ++ logsOf w total sz dir folder es (i + 1)

/-- Applies a sequence of writes to the filesystem, in order. -/
def applyWrites (ws : List (Str × Bytes)) (fs : FS) : FS :=
  ws.foldl (fun f pb => fsWrite pb.1 pb.2 f) fs

/-- The last write to path `q` in a write sequence, if any. -/
def lastW : List (Str × Bytes) → Str → Option Bytes
  | [], _ => none
  | x :: ws, q =>
    match lastW ws q with
    | some b => some b
    | none => if q = x.1 then some x.2 else none

/-! ### Concrete instances -/

/-- The empty filesystem. -/
def fsNone : FS := fun _ => none

/-- A round rendering no thumbnails and no boundary. -/
def emptyRound : Round := ⟨[], false⟩

/-- A session that never renders a thumbnail: three stagnant rounds occur
immediately. -/
def sStag : Session := ⟨true, true, fun _ => emptyRound⟩

/-- The collect result on `sStag`. -/
def resStag : CollectRes := runRounds sStag.rounds 50 0 0 0 ⟨[], []⟩

/-- A thumbnail with a low-quality URL and a decorated label. -/
def tDup : Thumb :=
  ⟨s2l "https://cdn.discordapp.com/emojis/3.webp?size=64", s2l ":app le:"⟩

/-- A session whose single round renders the same thumbnail twice and then
hits the next category section. -/
def sDup : Session := ⟨true, true, fun _ => ⟨[tDup, tDup], true⟩⟩

/-- The collect result on `sDup`. -/
def resDup : CollectRes := runRounds sDup.rounds 50 0 0 0 ⟨[], []⟩

/-- A session hitting the section boundary on round 0. -/
def sBound : Session := ⟨true, true, fun _ => ⟨[tDup], true⟩⟩

/-- The collect result on `sBound`. -/
def resBound : CollectRes := runRounds sBound.rounds 50 0 0 0 ⟨[], []⟩

/-- A session whose emoji picker container is absent. -/
def sNoCont : Session := ⟨false, true, fun _ => emptyRound⟩

/-- A world where every step succeeds: fetch yields `[5]`, sharp encodes to
`[9]`, and the read-back agrees with the written length. -/
def wOk : World :=
  { fetch := fun _ => (true, [5]), sharpEnc := fun _ _ _ => some [9],
    readBack := fun _ => 1 }

/-- An item whose sanitized name is empty. -/
def eNoName : Emoji :=
  ⟨s2l "https://cdn.discordapp.com/emojis/1.webp?size=512", []⟩

/-- A world identical to `wOk` except that re-opening the written file
observes 7 bytes although 1 byte was written. -/
def wMis : World :=
  { fetch := fun _ => (true, [5]), sharpEnc := fun _ _ _ => some [9],
    readBack := fun _ => 7 }

/-- A well-named item for the write-verification scenario. -/
def eMis : Emoji :=
  ⟨s2l "https://cdn.discordapp.com/emojis/2.webp?size=512", s2l "pika"⟩

/-- Three items with distinct URLs and names. -/
def itemsThree : List Emoji :=
  [⟨s2l "u1", s2l "a"⟩, ⟨s2l "u2", s2l "b"⟩, ⟨s2l "u3", s2l "c"⟩]

/-- A world where fetching the second item's URL returns a non-success
status and everything else succeeds. -/
def wThree : World :=
  { fetch := fun u => if u = s2l "u2" then (false, []) else (true, [7]),
    sharpEnc := fun b _ _ => some b, readBack := fun _ => 1 }

/-- A world where every fetch fails. -/
def wNoFetch : World :=
  { fetch := fun _ => (false, []), sharpEnc := fun _ _ _ => none,
    readBack := fun _ => 0 }

/-- A single item for the pre-write-failure scenario. -/
def eOne : Emoji := ⟨s2l "u", s2l "n"⟩

/-! ### String lemmas for the URL rewrite -/

theorem startsWithStr_append (n q : Str) : startsWithStr (n ++ q) n = true := by
  induction n with
  | nil => cases q <;> rfl
  | cons d n ih => simp [startsWithStr, ih]

theorem includesStr_of_startsWith {h n : Str} (hs : startsWithStr h n = true) :
    includesStr h n = true := by
  cases h with
  | nil => exact hs
  | cons c t => simp [includesStr, hs]

theorem includesStr_cons (c : Char) {t n : Str} (ht : includesStr t n = true) :
    includesStr (c :: t) n = true := by
  simp [includesStr, ht]

theorem includesStr_occurs (a n b : Str) : includesStr (a ++ (n ++ b)) n = true := by
  induction a with
  | nil => rw [List.nil_append]; exact includesStr_of_startsWith (startsWithStr_append n b)
  | cons c t ih => rw [List.cons_append]; exact includesStr_cons c ih

theorem dropLit_self_append (n r : Str) : dropLit (n ++ r) n = some r := by
  induction n with
  | nil => rw [List.nil_append]; cases r <;> rfl
  | cons d n ih => simp [dropLit, ih]

theorem matchSizeAt_size (d : Char) (q : Str) (hd : d.isDigit = true) :
    matchSizeAt ('s' :: 'i' :: 'z' :: 'e' :: '=' :: d :: q) =
      some (q.dropWhile Char.isDigit) := by
  have h1 : dropLit ('s' :: 'i' :: 'z' :: 'e' :: '=' :: d :: q) (s2l "size=") =
      some (d :: q) := dropLit_self_append (s2l "size=") (d :: q)
  unfold matchSizeAt
  rw [h1]
  simp [List.takeWhile, List.dropWhile, hd]

theorem findSize_some (a : Str) (d : Char) (q : Str) (hd : d.isDigit = true) :
    ∃ pr : Str × Str,
      findSize (a ++ ('s' :: 'i' :: 'z' :: 'e' :: '=' :: d :: q)) = some pr := by
  induction a with
  | nil =>
    refine ⟨([], q.dropWhile Char.isDigit), ?_⟩
    rw [List.nil_append]
    simp only [findSize, matchSizeAt_size d q hd]
  | cons c t ih =>
    obtain ⟨⟨p, r⟩, hpr⟩ := ih
    rw [List.cons_append]
    rcases hm : matchSizeAt (c :: (t ++ ('s' :: 'i' :: 'z' :: 'e' :: '=' :: d :: q)))
      with _ | rest
    · refine ⟨(c :: p, r), ?_⟩
      simp only [findSize, List.cons_append] at hm ⊢
      rw [hm, hpr]
    · refine ⟨([], rest), ?_⟩
      simp only [findSize, List.cons_append] at hm ⊢
      rw [hm]

/-! ### Collector lemmas -/

theorem scanRound_eq (ts : List Thumb) : ∀ seen out,
    scanRound ⟨seen, out⟩ ts =
      ⟨seen ++ (firstSeenDedup seen (ts.map normThumb)).map Emoji.url,
       out ++ firstSeenDedup seen (ts.map normThumb)⟩ := by
  induction ts with
  | nil => intro seen out; simp [scanRound, firstSeenDedup]
  | cons t ts ih =>
    intro seen out
    by_cases hm : (normThumb t).url ∈ seen
    · have h1 : scanThumb ⟨seen, out⟩ t = ⟨seen, out⟩ := by
        simp [scanThumb, hm]
      have h2 : scanRound ⟨seen, out⟩ (t :: ts) = scanRound ⟨seen, out⟩ ts := by
        simp [scanRound, List.foldl_cons, h1]
      rw [h2, ih seen out]
      simp [firstSeenDedup, hm]
    · have h1 : scanThumb ⟨seen, out⟩ t =
          ⟨seen ++ [(normThumb t).url], out ++ [normThumb t]⟩ := by
        simp [scanThumb, hm]
      have h2 : scanRound ⟨seen, out⟩ (t :: ts) =
          scanRound ⟨seen ++ [(normThumb t).url], out ++ [normThumb t]⟩ ts := by
        simp [scanRound, List.foldl_cons, h1]
      rw [h2, ih]
      simp [firstSeenDedup, hm, List.append_assoc]

theorem firstSeenDedup_append (xs ys : List Emoji) : ∀ seen,
    firstSeenDedup seen (xs ++ ys) =
      firstSeenDedup seen xs ++
        firstSeenDedup (seen ++ (firstSeenDedup seen xs).map Emoji.url) ys := by
  induction xs with
  | nil => intro seen; simp [firstSeenDedup]
  | cons e xs ih =>
    intro seen
    by_cases hm : e.url ∈ seen
    · simp [firstSeenDedup, hm, ih seen]
    · simp [firstSeenDedup, hm, ih (seen ++ [e.url]), List.append_assoc]

theorem firstSeenDedup_mem_iff (l : List Emoji) : ∀ seen u,
    u ∈ (firstSeenDedup seen l).map Emoji.url ↔
      (u ∈ l.map Emoji.url ∧ u ∉ seen) := by
  induction l with
  | nil => intro seen u; simp [firstSeenDedup]
  | cons e l ih =>
    intro seen u
    by_cases hm : e.url ∈ seen
    · rw [show firstSeenDedup seen (e :: l) = firstSeenDedup seen l from by
        simp [firstSeenDedup, hm]]
      rw [ih seen u]
      simp only [List.map_cons, List.mem_cons]
      constructor
      · rintro ⟨h1, h2⟩; exact ⟨Or.inr h1, h2⟩
      · rintro ⟨h1 | h1, h2⟩
        · exact absurd (h1 ▸ hm) h2
        · exact ⟨h1, h2⟩
    · rw [show firstSeenDedup seen (e :: l) =
          e :: firstSeenDedup (seen ++ [e.url]) l from by
        simp [firstSeenDedup, hm]]
      simp only [List.map_cons, List.mem_cons, ih (seen ++ [e.url]) u,
        List.mem_append, List.mem_singleton]
      constructor
      · rintro (rfl | ⟨h1, h2⟩)
        · exact ⟨Or.inl rfl, hm⟩
        · exact ⟨Or.inr h1, fun hs => h2 (Or.inl hs)⟩
      · rintro ⟨rfl | h1, h2⟩
        · exact Or.inl rfl
        · by_cases he : u = e.url
          · exact Or.inl he
          · exact Or.inr ⟨h1, by
              rintro (hs | hs | hs)
              · exact h2 hs
              · exact he hs
              · simp at hs⟩

theorem firstSeenDedup_urls_nodup (l : List Emoji) : ∀ seen,
    ((firstSeenDedup seen l).map Emoji.url).Nodup := by
  induction l with
  | nil => intro seen; simp [firstSeenDedup]
  | cons e l ih =>
    intro seen
    by_cases hm : e.url ∈ seen
    · rw [show firstSeenDedup seen (e :: l) = firstSeenDedup seen l from by
        simp [firstSeenDedup, hm]]
      exact ih seen
    · rw [show firstSeenDedup seen (e :: l) =
          e :: firstSeenDedup (seen ++ [e.url]) l from by
        simp [firstSeenDedup, hm]]
      simp only [List.map_cons, List.nodup_cons]
      refine ⟨fun hmem => ?_, ih (seen ++ [e.url])⟩
      have := (firstSeenDedup_mem_iff l (seen ++ [e.url]) e.url).mp hmem
      exact this.2 (by simp)

theorem runRounds_out (rounds : Nat → Round) :
    ∀ fuel round prev noNew seen out,
      (runRounds rounds fuel round prev noNew ⟨seen, out⟩).out =
        out ++ firstSeenDedup seen
          ((runRounds rounds fuel round prev noNew ⟨seen, out⟩).scanned.map normThumb) := by
  intro fuel
  induction fuel with
  | zero => intro round prev noNew seen out; simp [runRounds, firstSeenDedup]
  | succ fuel ih =>
    intro round prev noNew seen out
    simp only [runRounds, scanRound_eq]
    split
    · simp
    · split
      · split
        · simp
        · simp [ih, firstSeenDedup_append, List.append_assoc]
      · simp [ih, firstSeenDedup_append, List.append_assoc]

theorem extract_ok_res {s : Session} {res : CollectRes}
    (hok : extractEmojiUrls s = Except.ok res) :
    res = runRounds s.rounds 50 0 0 0 ⟨[], []⟩ := by
  unfold extractEmojiUrls at hok
  split at hok
  · simp at hok
  · split at hok
    · simp at hok
    · injection hok with h
      exact h.symm

theorem runRounds_trace_le (rounds : Nat → Round) :
    ∀ fuel round prev noNew st,
      (runRounds rounds fuel round prev noNew st).trace.length ≤ fuel := by
  intro fuel
  induction fuel with
  | zero => intro round prev noNew st; simp [runRounds]
  | succ fuel ih =>
    intro round prev noNew st
    simp only [runRounds]
    split
    · simp
    · split
      · split
        · simp
        · simp only [List.length_cons]
          exact Nat.succ_le_succ (ih _ _ _ _)
      · simp only [List.length_cons]
        exact Nat.succ_le_succ (ih _ _ _ _)

theorem runRounds_boundary_exit (rounds : Nat → Round) :
    ∀ fuel round prev noNew st i e,
      (runRounds rounds fuel round prev noNew st).trace.get? i = some e →
      e.boundary = true →
      (runRounds rounds fuel round prev noNew st).trace.length = i + 1 ∧
      (runRounds rounds fuel round prev noNew st).exit = CollectExit.boundary ∧
      (runRounds rounds fuel round prev noNew st).exitRound = round + i ∧
      (runRounds rounds fuel round prev noNew st).scrolls = i ∧
      (runRounds rounds fuel round prev noNew st).scanned = scanBlock rounds round (i + 1) := by
  intro fuel
  induction fuel with
  | zero =>
    intro round prev noNew st i e hget _
    simp [runRounds] at hget
  | succ fuel ih =>
    intro round prev noNew st i e hget hbd
    simp only [runRounds] at hget ⊢
    split at hget
    next hb =>
      cases i with
      | zero =>
        simp only [List.get?_cons_zero, Option.some.injEq] at hget
        subst hget
        simp [hb, scanBlock]
      | succ j => simp at hget
    next hb =>
      split at hget
      next hc =>
        split at hget
        next hn =>
          cases i with
          | zero =>
            simp only [List.get?_cons_zero, Option.some.injEq] at hget
            subst hget
            simp at hbd
          | succ j => simp at hget
        next hn =>
          cases i with
          | zero =>
            simp only [List.get?_cons_zero, Option.some.injEq] at hget
            subst hget
            simp at hbd
          | succ j =>
            simp only [List.get?_cons_succ] at hget
            obtain ⟨h1, h2, h3, h4, h5⟩ := ih _ _ _ _ j e hget hbd
            rw [if_neg hb, if_pos hc, if_neg hn]
            refine ⟨?_, ?_, ?_, ?_, ?_⟩
            · simp [h1]
            · simp [h2]
            · simp [h3]; omega
            · simp [h4]
            · simp [h5, scanBlock]
      next hc =>
        cases i with
        | zero =>
          simp only [List.get?_cons_zero, Option.some.injEq] at hget
          subst hget
          simp at hbd
        | succ j =>
          simp only [List.get?_cons_succ] at hget
          obtain ⟨h1, h2, h3, h4, h5⟩ := ih _ _ _ _ j e hget hbd
          rw [if_neg hb, if_neg hc]
          refine ⟨?_, ?_, ?_, ?_, ?_⟩
          · simp [h1]
          · simp [h2]
          · simp [h3]; omega
          · simp [h4]
          · simp [h5, scanBlock]

theorem runRounds_stag_one (rounds : Nat → Round) :
    ∀ fuel round prev noNew st e,
      2 ≤ noNew →
      (runRounds rounds fuel round prev noNew st).trace.get? 0 = some e →
      e.countAfter = e.countBefore →
      e.boundary = false →
      (runRounds rounds fuel round prev noNew st).trace.length = 1 ∧
      (runRounds rounds fuel round prev noNew st).exit = CollectExit.stagnation ∧
      (runRounds rounds fuel round prev noNew st).exitRound = round := by
  intro fuel
  cases fuel with
  | zero =>
    intro round prev noNew st e h2 hget hsc hbd
    simp [runRounds] at hget
  | succ fuel =>
    intro round prev noNew st e h2 hget hsc hbd
    simp only [runRounds] at hget ⊢
    by_cases hb : (rounds round).nextIsSection = true
    · rw [if_pos hb] at hget ⊢
      simp only [List.get?_cons_zero, Option.some.injEq] at hget
      subst hget
      simp at hbd
    · rw [if_neg hb] at hget ⊢
      by_cases hc : (scanRound st (rounds round).thumbs).seen.length = prev
      · rw [if_pos hc] at hget ⊢
        by_cases hn : 3 ≤ noNew + 1
        · rw [if_pos hn]
          simp
        · exact absurd (by omega) hn
      · rw [if_neg hc] at hget ⊢
        simp only [List.get?_cons_zero, Option.some.injEq] at hget
        subst hget
        simp at hsc
        exact absurd hsc hc

theorem runRounds_stag_two (rounds : Nat → Round) :
    ∀ fuel round prev noNew st e0 e1,
      1 ≤ noNew →
      (runRounds rounds fuel round prev noNew st).trace.get? 0 = some e0 →
      e0.countAfter = e0.countBefore →
      e0.boundary = false →
      (runRounds rounds fuel round prev noNew st).trace.get? 1 = some e1 →
      e1.countAfter = e1.countBefore →
      e1.boundary = false →
      (runRounds rounds fuel round prev noNew st).trace.length = 2 ∧
      (runRounds rounds fuel round prev noNew st).exit = CollectExit.stagnation ∧
      (runRounds rounds fuel round prev noNew st).exitRound = round + 1 := by
  intro fuel
  cases fuel with
  | zero =>
    intro round prev noNew st e0 e1 h1n hget0 hsc0 hbd0 hget1 hsc1 hbd1
    simp [runRounds] at hget0
  | succ fuel =>
    intro round prev noNew st e0 e1 h1n hget0 hsc0 hbd0 hget1 hsc1 hbd1
    simp only [runRounds] at hget0 hget1 ⊢
    by_cases hb : (rounds round).nextIsSection = true
    · rw [if_pos hb] at hget0 hget1 ⊢
      simp at hget1
    · rw [if_neg hb] at hget0 hget1 ⊢
      by_cases hc : (scanRound st (rounds round).thumbs).seen.length = prev
      · rw [if_pos hc] at hget0 hget1 ⊢
        by_cases hn : 3 ≤ noNew + 1
        · rw [if_pos hn] at hget0 hget1 ⊢
          simp at hget1
        · rw [if_neg hn] at hget0 hget1 ⊢
          simp only [List.get?_cons_succ] at hget1
          obtain ⟨l1, l2, l3⟩ := runRounds_stag_one rounds fuel (round + 1) _ (noNew + 1) _
            e1 (by omega) hget1 hsc1 hbd1
          refine ⟨?_, ?_, ?_⟩
          · simp [l1]
          · simp [l2]
          · simp [l3]
      · rw [if_neg hc] at hget0 hget1 ⊢
        simp only [List.get?_cons_zero, Option.some.injEq] at hget0
        subst hget0
        simp at hsc0
        exact absurd hsc0 hc

theorem runRounds_stag_three (rounds : Nat → Round) :
    ∀ fuel round prev noNew st i e0 e1 e2,
      (runRounds rounds fuel round prev noNew st).trace.get? i = some e0 →
      e0.countAfter = e0.countBefore →
      e0.boundary = false →
      (runRounds rounds fuel round prev noNew st).trace.get? (i + 1) = some e1 →
      e1.countAfter = e1.countBefore →
      e1.boundary = false →
      (runRounds rounds fuel round prev noNew st).trace.get? (i + 2) = some e2 →
      e2.countAfter = e2.countBefore →
      e2.boundary = false →
      (runRounds rounds fuel round prev noNew st).trace.length = i + 3 ∧
      (runRounds rounds fuel round prev noNew st).exit = CollectExit.stagnation ∧
      (runRounds rounds fuel round prev noNew st).exitRound = round + i + 2 := by
  intro fuel
  induction fuel with
  | zero =>
    intro round prev noNew st i e0 e1 e2 hget0 hsc0 hbd0 hget1 hsc1 hbd1 hget2 hsc2 hbd2
    simp [runRounds] at hget0
  | succ fuel ih =>
    intro round prev noNew st i e0 e1 e2 hget0 hsc0 hbd0 hget1 hsc1 hbd1 hget2 hsc2 hbd2
    simp only [runRounds] at hget0 hget1 hget2 ⊢
    simp only [show i + 2 = i + 1 + 1 from rfl] at hget2
    by_cases hb : (rounds round).nextIsSection = true
    · rw [if_pos hb] at hget0 hget1 hget2 ⊢
      simp at hget1
    · rw [if_neg hb] at hget0 hget1 hget2 ⊢
      by_cases hc : (scanRound st (rounds round).thumbs).seen.length = prev
      · rw [if_pos hc] at hget0 hget1 hget2 ⊢
        by_cases hn : 3 ≤ noNew + 1
        · rw [if_pos hn] at hget0 hget1 hget2 ⊢
          simp at hget1
        · rw [if_neg hn] at hget0 hget1 hget2 ⊢
          cases i with
          | zero =>
            simp only [List.get?_cons_zero, Option.some.injEq] at hget0
            simp only [List.get?_cons_succ] at hget1 hget2
            obtain ⟨l1, l2, l3⟩ := runRounds_stag_two rounds fuel (round + 1) _ (noNew + 1) _
              e1 e2 (by omega) hget1 hsc1 hbd1 hget2 hsc2 hbd2
            refine ⟨?_, ?_, ?_⟩
            · simp [l1]
            · simp [l2]
            · simp [l3]
          | succ j =>
            simp only [List.get?_cons_succ] at hget0 hget1 hget2
            obtain ⟨l1, l2, l3⟩ := ih (round + 1) _ (noNew + 1) _ j e0 e1 e2
              hget0 hsc0 hbd0 hget1 hsc1 hbd1 hget2 hsc2 hbd2
            refine ⟨?_, ?_, ?_⟩
            · simp [l1]
            · simp [l2]
            · simp [l3]; omega
      · rw [if_neg hc] at hget0 hget1 hget2 ⊢
        cases i with
        | zero =>
          simp only [List.get?_cons_zero, Option.some.injEq] at hget0
          subst hget0
          simp at hsc0
          exact absurd hsc0 hc
        | succ j =>
          simp only [List.get?_cons_succ] at hget0 hget1 hget2
          obtain ⟨l1, l2, l3⟩ := ih (round + 1) _ 0 _ j e0 e1 e2
            hget0 hsc0 hbd0 hget1 hsc1 hbd1 hget2 hsc2 hbd2
          refine ⟨?_, ?_, ?_⟩
          · simp [l1]
          · simp [l2]
          · simp [l3]; omega

theorem runRounds_noNew_law (rounds : Nat → Round) :
    ∀ fuel round prev noNew st j e,
      (runRounds rounds fuel round prev noNew st).trace.get? j = some e →
      e.boundary = false →
      e.noNewAfter = if e.countAfter = e.countBefore then e.noNewBefore + 1 else 0 := by
  intro fuel
  induction fuel with
  | zero =>
    intro round prev noNew st j e hget _
    simp [runRounds] at hget
  | succ fuel ih =>
    intro round prev noNew st j e hget hbd
    simp only [runRounds] at hget
    by_cases hb : (rounds round).nextIsSection = true
    · rw [if_pos hb] at hget
      cases j with
      | zero =>
        simp only [List.get?_cons_zero, Option.some.injEq] at hget
        subst hget
        simp at hbd
      | succ k => simp at hget
    · rw [if_neg hb] at hget
      by_cases hc : (scanRound st (rounds round).thumbs).seen.length = prev
      · rw [if_pos hc] at hget
        by_cases hn : 3 ≤ noNew + 1
        · rw [if_pos hn] at hget
          cases j with
          | zero =>
            simp only [List.get?_cons_zero, Option.some.injEq] at hget
            subst hget
            simp [hc]
          | succ k => simp at hget
        · rw [if_neg hn] at hget
          cases j with
          | zero =>
            simp only [List.get?_cons_zero, Option.some.injEq] at hget
            subst hget
            simp [hc]
          | succ k =>
            simp only [List.get?_cons_succ] at hget
            exact ih _ _ _ _ k e hget hbd
      · rw [if_neg hc] at hget
        cases j with
        | zero =>
          simp only [List.get?_cons_zero, Option.some.injEq] at hget
          subst hget
          simp [hc]
        | succ k =>
          simp only [List.get?_cons_succ] at hget
          exact ih _ _ _ _ k e hget hbd

/-! ### Pipeline lemmas -/

theorem processItem_fst (w : World) (e : Emoji) (i total sz : Nat)
    (dir folder : Str) (fs : FS) :
    (processItem w e i total sz dir folder fs).1 =
      if itemSucceeds w sz e = true then
        fsWrite (destPathNamed dir folder e) (encOf w sz e) fs
      else fs := by
  by_cases h1 : (w.fetch e.url).1 = false
  · simp [processItem, itemSucceeds, h1]
  · by_cases h2 : (w.fetch e.url).2.length = 0
    · simp [processItem, itemSucceeds, h1, h2]
    · rcases henc : encRes w sz e with _ | enc
      · simp [processItem, itemSucceeds, h1, h2, henc]
      · by_cases h3 : enc.length = 0
        · simp [processItem, itemSucceeds, h1, h2, henc, h3, encOf]
        · simp [processItem, itemSucceeds, h1, h2, henc, h3, encOf]

theorem processItem_snd (w : World) (e : Emoji) (i total sz : Nat)
    (dir folder : Str) (fs : FS) :
    (processItem w e i total sz dir folder fs).2 = itemLogs w e i total sz dir folder := by
  by_cases h1 : (w.fetch e.url).1 = false
  · simp [processItem, itemLogs, h1]
  · by_cases h2 : (w.fetch e.url).2.length = 0
    · simp [processItem, itemLogs, h1, h2]
    · rcases henc : encRes w sz e with _ | enc
      · simp [processItem, itemLogs, h1, h2, henc]
      · by_cases h3 : enc.length = 0
        · simp [processItem, itemLogs, h1, h2, henc, h3]
        · simp [processItem, itemLogs, h1, h2, henc, h3]

theorem runItems_eq (w : World) (dir folder : Str) (total sz : Nat) :
    ∀ es i fs,
      runItems w dir folder total sz es i fs =
        (applyWrites (writesOf w sz dir folder es) fs,
         logsOf w total sz dir folder es i) := by
  intro es
  induction es with
  | nil => intro i fs; simp [runItems, writesOf, logsOf, applyWrites]
  | cons e es ih =>
    intro i fs
    simp only [runItems, processItem_fst, processItem_snd, ih, writesOf, logsOf]
    by_cases hs : itemSucceeds w sz e = true
    · simp [hs, applyWrites]
    · simp [hs, applyWrites]

theorem applyWrites_apply (ws : List (Str × Bytes)) : ∀ fs q,
    applyWrites ws fs q =
      match lastW ws q with
      | some b => some b
      | none => fs q := by
  induction ws with
  | nil => intro fs q; simp [applyWrites, lastW]
  | cons x ws ih =>
    intro fs q
    have hfold : applyWrites (x :: ws) fs = applyWrites ws (fsWrite x.1 x.2 fs) := by
      simp [applyWrites]
    rw [hfold, ih]
    simp only [lastW]
    rcases h : lastW ws q with _ | b
    · by_cases hq : q = x.1 <;> simp [hq, fsWrite]
    · simp

theorem applyWrites_idem (ws : List (Str × Bytes)) (fs : FS) :
    applyWrites ws (applyWrites ws fs) = applyWrites ws fs := by
  funext q
  rcases h : lastW ws q with _ | b
  · simp [applyWrites_apply, h]
  · simp [applyWrites_apply, h]

theorem writesOf_append (w : World) (sz : Nat) (dir folder : Str) :
    ∀ xs ys, writesOf w sz dir folder (xs ++ ys) =
      writesOf w sz dir folder xs ++ writesOf w sz dir folder ys := by
  intro xs
  induction xs with
  | nil => intro ys; simp [writesOf]
  | cons e xs ih =>
    intro ys
    by_cases hs : itemSucceeds w sz e = true
    · simp [writesOf, hs, ih]
    · simp [writesOf, hs, ih]

theorem itemLogs_downloading_mem (w : World) (e : Emoji) (i total sz : Nat)
    (dir folder : Str) :
    LogMsg.downloading (i + 1) total ∈ itemLogs w e i total sz dir folder := by
  by_cases h1 : (w.fetch e.url).1 = false
  · simp [itemLogs, h1]
  · by_cases h2 : (w.fetch e.url).2.length = 0
    · simp [itemLogs, h1, h2]
    · rcases henc : encRes w sz e with _ | enc
      · simp [itemLogs, h1, h2, henc]
      · by_cases h3 : enc.length = 0 <;> simp [itemLogs, h1, h2, henc, h3]

theorem logsOf_downloading (w : World) (total sz : Nat) (dir folder : Str) :
    ∀ es i0 k, k < es.length →
      LogMsg.downloading (i0 + k + 1) total ∈ logsOf w total sz dir folder es i0 := by
  intro es
  induction es with
  | nil => intro i0 k hk; simp at hk
  | cons e es ih =>
    intro i0 k hk
    cases k with
    | zero =>
      simp only [logsOf, Nat.add_zero]
      exact List.mem_append_left _ (itemLogs_downloading_mem w e i0 total sz dir folder)
    | succ k' =>
      simp only [logsOf]
      refine List.mem_append_right _ ?_
      rw [show i0 + (k' + 1) + 1 = (i0 + 1) + k' + 1 from by omega]
      exact ih (i0 + 1) k' (by simpa using hk)

theorem itemLogs_fail_length (w : World) (e : Emoji) (i total sz : Nat)
    (dir folder : Str) :
    ((itemLogs w e i total sz dir folder).filter isFailureLog).length =
      if itemSucceeds w sz e = true then 0 else 1 := by
  by_cases h1 : (w.fetch e.url).1 = false
  · simp [itemLogs, itemSucceeds, h1, isFailureLog]
  · by_cases h2 : (w.fetch e.url).2.length = 0
    · simp [itemLogs, itemSucceeds, h1, h2, isFailureLog]
    · rcases henc : encRes w sz e with _ | enc
      · simp [itemLogs, itemSucceeds, h1, h2, henc, isFailureLog]
      · by_cases h3 : enc.length = 0
        · simp [itemLogs, itemSucceeds, h1, h2, henc, h3, isFailureLog]
        · simp [itemLogs, itemSucceeds, h1, h2, henc, h3, isFailureLog]

theorem logsOf_fail_length (w : World) (total sz : Nat) (dir folder : Str) :
    ∀ es i0,
      ((logsOf w total sz dir folder es i0).filter isFailureLog).length =
        (es.filter (fun e => !(itemSucceeds w sz e))).length := by
  intro es
  induction es with
  | nil => intro i0; simp [logsOf]
  | cons e es ih =>
    intro i0
    simp only [logsOf, List.filter_append, List.length_append,
      itemLogs_fail_length, List.filter_cons]
    by_cases hs : itemSucceeds w sz e = true
    · simp [hs, ih]
    · simp [hs, ih]; omega

/-! ### Claims -/

/-- C1: for every session — any sequence of scan rounds, with arbitrary
repetition of URLs across rounds — the list returned by the collector has
exactly one descriptor per distinct normalized URL, in first-seen order: it
equals the first-seen deduplication of the full scanned sequence, no two of
its elements share a `url`, and a URL appears in the output iff it was
scanned. -/
theorem c1_dedup_first_seen (s : Session) (res : CollectRes)
    (hok : extractEmojiUrls s = Except.ok res) :
    res.out = firstSeenDedup [] (res.scanned.map normThumb) ∧
    (res.out.map Emoji.url).Nodup ∧
    (∀ u, u ∈ res.out.map Emoji.url ↔
      u ∈ (res.scanned.map normThumb).map Emoji.url) := by
  have hres := extract_ok_res hok
  subst hres
  have h1 : (runRounds s.rounds 50 0 0 0 ⟨[], []⟩).out =
      firstSeenDedup [] ((runRounds s.rounds 50 0 0 0 ⟨[], []⟩).scanned.map normThumb) := by
    simpa using runRounds_out s.rounds 50 0 0 0 [] []
  refine ⟨h1, ?_, ?_⟩
  · rw [h1]
    exact firstSeenDedup_urls_nodup _ []
  · intro u
    rw [h1, firstSeenDedup_mem_iff]
    simp

/-- C1 witness: on a concrete session whose single round renders the same
thumbnail twice, the returned list is the first-seen dedup of the scan and
has pairwise-distinct URLs. -/
theorem c1_dedup_first_seen_witness :
    resDup.out = firstSeenDedup [] (resDup.scanned.map normThumb) ∧
    (resDup.out.map Emoji.url).Nodup :=
  ⟨(c1_dedup_first_seen sDup resDup rfl).1,
   (c1_dedup_first_seen sDup resDup rfl).2.1⟩

/-- C5: if three consecutive executed rounds each produce no new distinct
URL and none hits a section boundary, the loop terminates exactly at the
third such round with a stagnation exit, strictly before the round counter
reaches MAX_ROUNDS = 50; and on every non-boundary round the stagnant
counter is incremented exactly when the distinct count is unchanged from the
previous round and reset to 0 when it grew. -/
theorem c5_stagnation_termination (s : Session) (res : CollectRes) (i : Nat)
    (e0 e1 e2 : RoundLog)
    (hok : extractEmojiUrls s = Except.ok res)
    (h0 : res.trace.get? i = some e0)
    (hs0 : e0.countAfter = e0.countBefore) (hb0 : e0.boundary = false)
    (h1 : res.trace.get? (i + 1) = some e1)
    (hs1 : e1.countAfter = e1.countBefore) (hb1 : e1.boundary = false)
    (h2 : res.trace.get? (i + 2) = some e2)
    (hs2 : e2.countAfter = e2.countBefore) (hb2 : e2.boundary = false) :
    res.trace.length = i + 3 ∧
    res.exit = CollectExit.stagnation ∧
    res.exitRound = i + 2 ∧
    res.exitRound < 50 ∧
    (∀ j ej, res.trace.get? j = some ej → ej.boundary = false →
      ej.noNewAfter = if ej.countAfter = ej.countBefore then ej.noNewBefore + 1 else 0) := by
  have hres := extract_ok_res hok
  subst hres
  obtain ⟨l1, l2, l3⟩ := runRounds_stag_three s.rounds 50 0 0 0 ⟨[], []⟩ i e0 e1 e2
    h0 hs0 hb0 h1 hs1 hb1 h2 hs2 hb2
  have hle := runRounds_trace_le s.rounds 50 0 0 0 ⟨[], []⟩
  refine ⟨l1, l2, by simpa using l3, ?_, ?_⟩
  · have : i + 3 ≤ 50 := l1 ▸ hle
    rw [l3]
    omega
  · intro j ej hj hbj
    exact runRounds_noNew_law s.rounds 50 0 0 0 ⟨[], []⟩ j ej hj hbj

/-- C5 witness: on a session that never renders a thumbnail, rounds 0, 1
and 2 are stagnant and the loop stops at round 2 with a stagnation exit,
well before round 50. -/
theorem c5_stagnation_termination_witness :
    resStag.trace.length = 0 + 3 ∧ resStag.exit = CollectExit.stagnation ∧
    resStag.exitRound = 0 + 2 ∧ resStag.exitRound < 50 := by
  have h := c5_stagnation_termination sStag resStag 0
    ⟨0, 0, 0, false, 0, 1⟩ ⟨1, 0, 0, false, 1, 2⟩ ⟨2, 0, 0, false, 2, 3⟩
    rfl (by decide) rfl rfl (by decide) rfl rfl (by decide) rfl rfl
  exact ⟨h.1, h.2.1, h.2.2.1, h.2.2.2.1⟩

/-- C6: if on round k the element following the section is flagged as a new
section boundary, the loop terminates at round k: the trace ends with round
k, the exit cause is the boundary, the round counter stops at k, exactly k
scrolls were issued (none after that round), and the scanned thumbnails are
exactly those rendered by rounds 0..k — the boundary round is scanned before
stopping, regardless of how few stagnant rounds occurred. -/
theorem c6_boundary_termination (s : Session) (res : CollectRes) (k : Nat)
    (e : RoundLog)
    (hok : extractEmojiUrls s = Except.ok res)
    (hk : res.trace.get? k = some e)
    (hbd : e.boundary = true) :
    res.trace.length = k + 1 ∧
    res.exit = CollectExit.boundary ∧
    res.exitRound = k ∧
    res.scrolls = k ∧
    res.scanned = scanBlock s.rounds 0 (k + 1) := by
  have hres := extract_ok_res hok
  subst hres
  obtain ⟨l1, l2, l3, l4, l5⟩ :=
    runRounds_boundary_exit s.rounds 50 0 0 0 ⟨[], []⟩ k e hk hbd
  exact ⟨l1, l2, by simpa using l3, l4, l5⟩

/-- C6 witness: a session whose round 0 already carries the boundary flag
stops at round 0, after scanning round 0's thumbnail, with zero scrolls. -/
theorem c6_boundary_termination_witness :
    resBound.trace.length = 0 + 1 ∧
    resBound.exit = CollectExit.boundary ∧
    resBound.exitRound = 0 ∧
    resBound.scrolls = 0 ∧
    resBound.scanned = scanBlock sBound.rounds 0 (0 + 1) :=
  c6_boundary_termination sBound resBound 0 ⟨0, 0, 1, true, 0, 0⟩ rfl (by decide) rfl

/-- C7: for every thumbnail URL containing a `size=<digits>` query
parameter, the normalized URL contains `size=512`; and if the original URL
contained the `animated=true` marker, the normalized URL still contains
it. -/
theorem c7_quality_normalization (src : Str)
    (hsize : ∃ (a : Str) (d : Char) (q : Str), d.isDigit = true ∧
      src = a ++ ('s' :: 'i' :: 'z' :: 'e' :: '=' :: d :: q)) :
    includesStr (normalizeSrc src) (s2l "size=512") = true ∧
    (includesStr src (s2l "animated=true") = true →
      includesStr (normalizeSrc src) (s2l "animated=true") = true) := by
  obtain ⟨a, d, q, hd, hsrc⟩ := hsize
  obtain ⟨⟨p, r⟩, hf⟩ : ∃ pr : Str × Str, findSize src = some pr := by
    rw [hsrc]; exact findSize_some a d q hd
  have hrep : replaceSizeOnce src = p ++ (s2l "size=512" ++ r) := by
    simp [replaceSizeOnce, hf]
  constructor
  · simp only [normalizeSrc]
    by_cases hc : (includesStr src (s2l "animated=true") &&
        !includesStr (replaceSizeOnce src) (s2l "animated=true")) = true
    · rw [if_pos hc, hrep]
      have h2 : (p ++ (s2l "size=512" ++ r)) ++ s2l "&animated=true" =
          p ++ (s2l "size=512" ++ (r ++ s2l "&animated=true")) := by
        simp [List.append_assoc]
      rw [h2]
      exact includesStr_occurs _ _ _
    · rw [if_neg hc, hrep]
      exact includesStr_occurs _ _ _
  · intro hanim
    simp only [normalizeSrc]
    by_cases hc : (includesStr src (s2l "animated=true") &&
        !includesStr (replaceSizeOnce src) (s2l "animated=true")) = true
    · rw [if_pos hc]
      have h2 : replaceSizeOnce src ++ s2l "&animated=true" =
          (replaceSizeOnce src ++ ['&']) ++ (s2l "animated=true" ++ []) := by
        simp [List.append_assoc]
        rfl
      rw [h2]
      exact includesStr_occurs _ _ _
    · rw [if_neg hc]
      by_contra hno
      apply hc
      simp only [Bool.not_eq_true] at hno
      simp [hanim, hno]

/-- C7 witness: a concrete animated low-quality URL is rewritten to contain
`size=512` and keeps its `animated=true` marker. -/
theorem c7_quality_normalization_witness :
    includesStr
      (normalizeSrc (s2l "https://cdn.discordapp.com/emojis/9.gif?size=64&animated=true"))
      (s2l "size=512") = true ∧
    includesStr
      (normalizeSrc (s2l "https://cdn.discordapp.com/emojis/9.gif?size=64&animated=true"))
      (s2l "animated=true") = true := by
  have h := c7_quality_normalization
    (s2l "https://cdn.discordapp.com/emojis/9.gif?size=64&animated=true")
    ⟨s2l "https://cdn.discordapp.com/emojis/9.gif?", '6', s2l "4&animated=true",
     by decide, by decide⟩
  exact ⟨h.1, h.2 (by decide)⟩

/-- C8: when the scrollable picker container is absent the collector fails
with the structural error naming the picker container; when the container is
present but the server emoji section is absent it fails with the error
naming the section; when both are present no structural error is raised.
In the orchestrator loop of `src/index.ts`, the collector is invoked exactly
once per server that is reached — never twice — and a collector failure for
a server propagates unchanged to the orchestrator's `catch`, aborting that
server's collection (and the run) with no files written for it and no
retry. -/
theorem c8_structural_not_found (s : Session) (dir : Str) (sz : Nat) :
    (s.hasContainer = false →
      extractEmojiUrls s = Except.error (s2l "Emoji picker container not found")) ∧
    (s.hasContainer = true → s.hasSection = false →
      extractEmojiUrls s = Except.error (s2l "Server emoji section not found")) ∧
    (s.hasContainer = true → s.hasSection = true →
      ∃ r, extractEmojiUrls s = Except.ok r) ∧
    (∀ ts fs, ∀ c ∈ (processServers dir sz ts fs).collectCalls, c = 1) ∧
    (∀ (t : ServerTask) (ts : List ServerTask) (fs : FS) (msg : Str),
      extractEmojiUrls t.session = Except.error msg →
      processServers dir sz (t :: ts) fs =
        { collectCalls := [1], fs := fs, outcome := RunOutcome.aborted msg }) := by
  refine ⟨?_, ?_, ?_, ?_, ?_⟩
  · intro h
    simp [extractEmojiUrls, h]
  · intro h1 h2
    simp [extractEmojiUrls, h1, h2]
  · intro h1 h2
    refine ⟨runRounds s.rounds 50 0 0 0 ⟨[], []⟩, ?_⟩
    simp [extractEmojiUrls, h1, h2]
  · intro ts
    induction ts with
    | nil => intro fs c hc; simp [processServers] at hc
    | cons t ts ih =>
      intro fs c hc
      simp only [processServers] at hc
      rcases hx : extractEmojiUrls t.session with msg | res
      · rw [hx] at hc
        simpa using hc
      · rw [hx] at hc
        simp only [List.mem_cons] at hc
        rcases hc with rfl | hc
        · rfl
        · exact ih _ c hc
  · intro t ts fs msg hx
    simp [processServers, hx]

/-- C8 witness: a session with no picker container fails with the error
naming the picker container, and an orchestrator run whose first server
observes that session aborts with that same message after exactly one
collector invocation, leaving the filesystem untouched. -/
theorem c8_structural_not_found_witness :
    extractEmojiUrls sNoCont = Except.error (s2l "Emoji picker container not found") ∧
    processServers (s2l "emojis") 512 [⟨sNoCont, wOk, s2l "Srv"⟩] fsNone =
      { collectCalls := [1], fs := fsNone,
        outcome := RunOutcome.aborted (s2l "Emoji picker container not found") } := by
  have h := c8_structural_not_found sNoCont (s2l "emojis") 512
  exact ⟨h.1 rfl, h.2.2.2.2 ⟨sNoCont, wOk, s2l "Srv"⟩ [] fsNone _ (h.1 rfl)⟩

/-- C2 counterexample: the name-based pipeline has no positional fallback.
For a successfully processed item at index 0 whose sanitized name is empty,
nothing is written at `emojis/Srv/emoji_1.webp`; the file is written at
`emojis/Srv/.webp` (empty basename) instead. -/
theorem c2_counterexample :
    (processItem wOk eNoName 0 1 512 (s2l "emojis") (s2l "Srv") fsNone).1
        (s2l "emojis/Srv/emoji_1.webp") = none ∧
    (processItem wOk eNoName 0 1 512 (s2l "emojis") (s2l "Srv") fsNone).1
        (s2l "emojis/Srv/.webp") = some [9] :=
  ⟨by decide, by decide⟩

/-- C2 amended: in the name-based pipeline the destination basename is
`<name>.webp` unconditionally, so a successfully processed item whose
sanitized name is empty is written to `baseDir/folder/.webp` (empty
basename), not to a positional `emoji_<i+1>.webp` fallback; only the
separate positional-naming variant ever produces `emoji_<i+1>.webp`, and it
does so for every item. -/
theorem c2_empty_name_writes_dotwebp (w : World) (e : Emoji) (i total sz : Nat)
    (dir folder : Str) (fs : FS)
    (hname : e.name = [])
    (hok : itemSucceeds w sz e = true) :
    (processItem w e i total sz dir folder fs).1 =
      fsWrite (destPath dir folder (s2l ".webp")) (encOf w sz e) fs ∧
    fileNamePositional i = s2l "emoji_" ++ (Nat.repr (i + 1)).data ++ s2l ".webp" := by
  refine ⟨?_, rfl⟩
  rw [processItem_fst, if_pos hok]
  unfold destPathNamed fileNameNamed
  rw [hname]
  rfl

/-- C2 amended witness: the concrete empty-named item is written to
`emojis/Srv/.webp`. -/
theorem c2_empty_name_writes_dotwebp_witness :
    (processItem wOk eNoName 0 1 512 (s2l "emojis") (s2l "Srv") fsNone).1 =
      fsWrite (destPath (s2l "emojis") (s2l "Srv") (s2l ".webp"))
        (encOf wOk 512 eNoName) fsNone :=
  (c2_empty_name_writes_dotwebp wOk eNoName 0 1 512 (s2l "emojis") (s2l "Srv")
    fsNone rfl (by decide)).1

/-- C3 counterexample: the pipeline performs no comparison between the
read-back size and the written size.  For a concrete item whose write
succeeds with 1 byte while the re-opened file reports 7 bytes, the emitted
log lines contain no error-channel entry at all — no mismatch warning is
logged. -/
theorem c3_counterexample :
    (processItem wMis eMis 0 1 512 (s2l "emojis") (s2l "Srv") fsNone).2.filter
        isFailureLog = [] ∧
    encRes wMis 512 eMis = some [9] ∧
    wMis.readBack (destPathNamed (s2l "emojis") (s2l "Srv") eMis) = 7 ∧
    ([9] : Bytes).length ≠ 7 ∧
    LogMsg.diskSize 7 ∈
      (processItem wMis eMis 0 1 512 (s2l "emojis") (s2l "Srv") fsNone).2 :=
  ⟨by decide, by decide, by decide, by decide, by decide⟩

/-- C3 amended: after a successful write the pipeline re-opens the file and
logs the byte length the read-back observes — unconditionally, and on the
info channel; it performs no comparison with the expected length, emits no
mismatch warning, and the verification step never fails the item or the
run: the item's write and its five info log lines are produced whatever the
read-back returns. -/
theorem c3_readback_logged_nonfatal (w : World) (e : Emoji) (i total sz : Nat)
    (dir folder : Str) (fs : FS)
    (hok : itemSucceeds w sz e = true) :
    ∃ enc, encRes w sz e = some enc ∧
      processItem w e i total sz dir folder fs =
        (fsWrite (destPathNamed dir folder e) enc fs,
         [LogMsg.downloading (i + 1) total,
          LogMsg.downloaded (i + 1) (w.fetch e.url).2.length,
          LogMsg.processedOut (i + 1) enc.length,
          LogMsg.saved (i + 1),
          LogMsg.diskSize (w.readBack (destPathNamed dir folder e))]) := by
  by_cases h1 : (w.fetch e.url).1 = false
  · exact absurd hok (by simp [itemSucceeds, h1])
  · by_cases h2 : (w.fetch e.url).2.length = 0
    · exact absurd hok (by simp [itemSucceeds, h1, h2])
    · rcases henc : encRes w sz e with _ | enc
      · exact absurd hok (by simp [itemSucceeds, h1, h2, henc])
      · by_cases h3 : enc.length = 0
        · exact absurd hok (by simp [itemSucceeds, h1, h2, henc, h3])
        · exact ⟨enc, rfl, by simp [processItem, h1, h2, henc, h3]⟩

/-- C3 amended witness: on the concrete mismatch world (written length 1,
read-back 7) the item still completes with its five info log lines, the
last one reporting the observed 7 bytes. -/
theorem c3_readback_logged_nonfatal_witness :
    ∃ enc, encRes wMis 512 eMis = some enc ∧
      processItem wMis eMis 0 1 512 (s2l "emojis") (s2l "Srv") fsNone =
        (fsWrite (destPathNamed (s2l "emojis") (s2l "Srv") eMis) enc fsNone,
         [LogMsg.downloading 1 1,
          LogMsg.downloaded 1 1,
          LogMsg.processedOut 1 enc.length,
          LogMsg.saved 1,
          LogMsg.diskSize 7]) :=
  c3_readback_logged_nonfatal wMis eMis 0 1 512 (s2l "emojis") (s2l "Srv") fsNone
    (by decide)

/-- C4: the pipeline isolates failures per item: every item is attempted (a
`Downloading k+1/n` line is logged for each index below the input length),
each failing item contributes exactly one error-channel line while
processing continues, and the final filesystem is exactly the overlay of
the successful items' writes over the initial one — the call is a total
function of its inputs and never propagates an item failure.  In
particular, in the concrete 3-item run where item 2's fetch returns a
non-success status, files are written for items 1 and 3, no file is written
for item 2, and exactly one failure line — item 2's — is logged. -/
theorem c4_per_item_isolation (w : World) (items : List Emoji)
    (dir folder : Str) (sz : Nat) (fs : FS) :
    (∀ k, k < items.length →
      LogMsg.downloading (k + 1) items.length ∈
        (downloadAndProcessEmojis w items dir folder sz fs).2) ∧
    ((downloadAndProcessEmojis w items dir folder sz fs).2.filter isFailureLog).length =
      (items.filter (fun e => !(itemSucceeds w sz e))).length ∧
    (downloadAndProcessEmojis w items dir folder sz fs).1 =
      applyWrites (writesOf w sz dir folder items) fs ∧
    ((downloadAndProcessEmojis wThree itemsThree (s2l "emojis") (s2l "Srv") 512 fsNone).1
        (destPathNamed (s2l "emojis") (s2l "Srv") ⟨s2l "u1", s2l "a"⟩) = some [7] ∧
     (downloadAndProcessEmojis wThree itemsThree (s2l "emojis") (s2l "Srv") 512 fsNone).1
        (destPathNamed (s2l "emojis") (s2l "Srv") ⟨s2l "u3", s2l "c"⟩) = some [7] ∧
     (downloadAndProcessEmojis wThree itemsThree (s2l "emojis") (s2l "Srv") 512 fsNone).1
        (destPathNamed (s2l "emojis") (s2l "Srv") ⟨s2l "u2", s2l "b"⟩) = none ∧
     (downloadAndProcessEmojis wThree itemsThree (s2l "emojis") (s2l "Srv") 512 fsNone).2.filter
        isFailureLog = [LogMsg.failed 2 FailReason.fetchFailed]) := by
  refine ⟨?_, ?_, ?_, by decide, by decide, by decide, by decide⟩
  · intro k hk
    simp only [downloadAndProcessEmojis, runItems_eq]
    simpa using logsOf_downloading w items.length sz dir folder items 0 k hk
  · simp only [downloadAndProcessEmojis, runItems_eq]
    exact logsOf_fail_length w items.length sz dir folder items 0
  · simp only [downloadAndProcessEmojis, runItems_eq]

/-- C4 witness: in the concrete 3-item run, item 1 is attempted. -/
theorem c4_per_item_isolation_witness :
    LogMsg.downloading 1 3 ∈
      (downloadAndProcessEmojis wThree itemsThree (s2l "emojis") (s2l "Srv") 512 fsNone).2 :=
  (c4_per_item_isolation wThree itemsThree (s2l "emojis") (s2l "Srv") 512 fsNone).1
    0 (by decide)

/-- C9: running the pipeline a second time with the same items, target,
base directory, size and environment yields exactly the filesystem of the
first run: every write overwrites the file the first run created, so the
second run neither duplicates files nor changes anything. -/
theorem c9_idempotent_overwrite (w : World) (items : List Emoji)
    (dir folder : Str) (sz : Nat) (fs : FS) :
    (downloadAndProcessEmojis w items dir folder sz
        ((downloadAndProcessEmojis w items dir folder sz fs).1)).1 =
      (downloadAndProcessEmojis w items dir folder sz fs).1 := by
  simp only [downloadAndProcessEmojis, runItems_eq]
  exact applyWrites_idem _ _

/-- C10: a failure before the write step has no filesystem effect: running
the pipeline over the first i+1 items when item i fails any pre-write
checkpoint yields exactly the filesystem produced by the first i items —
earlier items' files are untouched and no file is created or modified for
item i; indeed processing a failing item is the identity on any
filesystem. -/
theorem c10_prewrite_no_fs_effect (w : World) (items : List Emoji)
    (dir folder : Str) (total sz : Nat) (fs : FS) (i : Nat)
    (hi : i < items.length)
    (hfail : itemSucceeds w sz (items.get ⟨i, hi⟩) = false) :
    (runItems w dir folder total sz (items.take (i + 1)) 0 fs).1 =
      (runItems w dir folder total sz (items.take i) 0 fs).1 ∧
    (∀ fs2 j, (processItem w (items.get ⟨i, hi⟩) j total sz dir folder fs2).1 = fs2) := by
  have hfail2 : itemSucceeds w sz items[i] = false := by
    simpa [List.get_eq_getElem] using hfail
  constructor
  · rw [runItems_eq, runItems_eq]
    have htake : items.take (i + 1) = items.take i ++ [items.get ⟨i, hi⟩] := by
      rw [List.take_succ]
      congr 1
      rw [List.getElem?_eq_getElem hi]
      simp [List.get_eq_getElem]
    rw [htake, writesOf_append]
    simp [writesOf, hfail2, applyWrites]
  · intro fs2 j
    rw [processItem_fst]
    simp [hfail2]

/-- C10 witness: with a single item whose fetch fails, the run over that
item leaves the filesystem exactly as the empty run does. -/
theorem c10_prewrite_no_fs_effect_witness :
    (runItems wNoFetch (s2l "emojis") (s2l "Srv") 1 512 ([eOne].take (0 + 1)) 0 fsNone).1 =
      (runItems wNoFetch (s2l "emojis") (s2l "Srv") 1 512 ([eOne].take 0) 0 fsNone).1 :=
  (c10_prewrite_no_fs_effect wNoFetch [eOne] (s2l "emojis") (s2l "Srv") 1 512 fsNone 0
    (by decide) (by decide)).1
